import Mathlib

/-!
Shallow embedding of the ASPEED INTC interrupt-aggregation controller
(`hw/intc/aspeed_intc.c`) and proofs about its state machine.

The controller owns, per input channel (there are 9 in the AST2700
configuration, each with 32 source lines), the bitmasks `enable`, `mask`,
`pending`, and two raw register mirrors: the enable register (reg index
`0x40 * irq` in `s->regs`) and the status register (reg index
`0x40 * irq + 1`).  The status register mirror doubles as the semantic
"latched status".  All register values are 32-bit; we model them as `Nat`
with explicit masking by `0xffffffff` where the C code's `uint32_t`
arithmetic demands it.  Output pins are modelled as a list of levels.
-/

/-- One input channel's state: `enable`, `mask`, `pending` are the
`s->enable[i]`, `s->mask[i]`, `s->pending[i]` arrays of `AspeedINTCState`;
`regEnable` and `regStatus` are the raw register mirrors
`s->regs[0x40*i]` and `s->regs[0x40*i + 1]`. -/
structure Channel where
  enable : Nat
  mask : Nat
  pending : Nat
  regEnable : Nat
  regStatus : Nat
deriving Repr, DecidableEq

/-- The all-zero channel, as left by `aspeed_intc_reset`. -/
def Channel.empty : Channel := ⟨0, 0, 0, 0, 0⟩

/-- Aggregator state: the per-channel state (`channels.length` plays the
role of `aic->num_inpins`) and the output pin levels (`outputPins.length`
plays the role of `aic->num_outpins`). -/
structure AspeedINTCState where
  channels : List Channel
  outputPins : List Bool
deriving Repr, DecidableEq

/-- 32-bit complement, the C `~data` on `uint32_t`. -/
def compl32 (v : Nat) : Nat := 0xffffffff ^^^ (v &&& 0xffffffff)

/-- Store `ch` as channel `i`'s state (the C writes through
`s->enable[i]` / `s->mask[i]` / `s->pending[i]` / `s->regs[..]`). -/
def setCh (s : AspeedINTCState) (i : Nat) (ch : Channel) : AspeedINTCState :=
  { s with channels := s.channels.set i ch }

/-- Channel `i`'s state (array indexing `s->enable[i]` etc.; the zero
channel out of range, which the guarded handlers never touch). -/
def chOf (s : AspeedINTCState) (i : Nat) : Channel :=
  s.channels.getD i Channel.empty

/-- Output pin `i`'s level (low out of range). -/
def pinOf (s : AspeedINTCState) (i : Nat) : Bool :=
  s.outputPins.getD i false

/-- `aspeed_intc_update`: set output pin `outpin` to `level`, validating
both indices against the configured pin counts and ignoring out-of-range
requests. -/
def aspeed_intc_update (s : AspeedINTCState) (inpin outpin : Nat)
    (level : Bool) : AspeedINTCState :=
  if s.channels.length ≤ inpin then s
  else if s.outputPins.length ≤ outpin then s
  else { s with outputPins := s.outputPins.set outpin level }

/-- `aspeed_intc_set_irq`: source-notification entry point for channel
`irq`.  `asserted` is the OR-gate's level snapshot (`orgates[irq].levels`
packed as a bitmask, bits `0..31` since `num_lines = 32`); the C loop
computing `select` is exactly `asserted &&& enable` restricted to the low
32 bits.  Out-of-range `irq` and `level = false` calls return the state
unchanged. -/
def aspeed_intc_set_irq (s : AspeedINTCState) (irq : Nat) (level : Bool)
    (asserted : Nat) : AspeedINTCState :=
  if s.channels.length ≤ irq then s
  else
    let ch := chOf s irq
    if level = false then s
    else
      let select := asserted &&& ch.enable &&& 0xffffffff
      if select = 0 then s
      else if ch.mask ≠ 0 ∨ ch.regStatus ≠ 0 then
        setCh s irq { ch with pending := ch.pending ||| select }
      else
        aspeed_intc_update (setCh s irq { ch with regStatus := select })
          irq irq true

/-- `aspeed_intc_enable_handler`: write `data` to channel `irq`'s enable
register.  The branches mirror the C: the disable-everything write, the
enable event (new bits), and the mask/unmask event disambiguated by the
XOR with the raw register mirror. -/
def aspeed_intc_enable_handler (s : AspeedINTCState) (irq : Nat)
    (data : Nat) : AspeedINTCState :=
  if s.channels.length ≤ irq then s
  else
    let ch := chOf s irq
    if data = 0 ∧ ch.enable = 0 then
      setCh s irq { ch with regEnable := data }
    else if ch.enable ||| data ≠ ch.enable then
      setCh s irq { ch with enable := ch.enable ||| data, regEnable := data }
    else
      let change := ch.regEnable ^^^ data
      if change &&& data ≠ 0 then
        setCh s irq { ch with mask := ch.mask &&& compl32 change, regEnable := data }
      else
        setCh s irq { ch with mask := ch.mask ||| change, regEnable := data }

/-- `aspeed_intc_status_handler`: write `data` to channel `irq`'s status
register (firmware acknowledgment).  Zero data is rejected; acknowledged
bits are cleared; an all-ones write returns before touching pending or
the output line; a full drain either replays pending or drops the line. -/
def aspeed_intc_status_handler (s : AspeedINTCState) (irq : Nat)
    (data : Nat) : AspeedINTCState :=
  if data = 0 then s
  else if s.channels.length ≤ irq then s
  else
    let ch := chOf s irq
    let cleared := ch.regStatus &&& compl32 data
    if data = 0xffffffff then
      setCh s irq { ch with regStatus := cleared }
    else if cleared = 0 then
      if ch.pending ≠ 0 then
        aspeed_intc_update
          (setCh s irq { ch with regStatus := ch.pending, pending := 0 })
          irq irq true
      else
        aspeed_intc_update (setCh s irq { ch with regStatus := cleared })
          irq irq false
    else
      setCh s irq { ch with regStatus := cleared }

/-- The two register kinds per channel dispatched by `aspeed_intc_write`. -/
inductive RegKind where
  | enableReg
  | statusReg
deriving Repr, DecidableEq

/-- `aspeed_intc_read`: reads return the raw register mirror. -/
def aspeed_intc_read (s : AspeedINTCState) (irq : Nat) (kind : RegKind) : Nat :=
  let ch := chOf s irq
  match kind with
  | RegKind.enableReg => ch.regEnable
  | RegKind.statusReg => ch.regStatus

/-- The AST2700 reset state: 9 input channels and 9 output pins
(`num_inpins = num_outpins = 9`), everything zeroed, lines low. -/
def initState : AspeedINTCState :=
  { channels := List.replicate 9 Channel.empty
    outputPins := List.replicate 9 false }

/-- States reachable from reset through the three entry points.  Register
writes arrive through 4-byte MMIO accesses, so their data is below
`2 ^ 32`. -/
inductive Reachable : AspeedINTCState → Prop where
  | init : Reachable initState
  | set_irq {s} (hs : Reachable s) (irq : Nat) (level : Bool) (asserted : Nat) :
      Reachable (aspeed_intc_set_irq s irq level asserted)
  | enable {s} (hs : Reachable s) (irq : Nat) (data : Nat) (hd : data < 2 ^ 32) :
      Reachable (aspeed_intc_enable_handler s irq data)
  | status {s} (hs : Reachable s) (irq : Nat) (data : Nat) (hd : data < 2 ^ 32) :
      Reachable (aspeed_intc_status_handler s irq data)

/-! ### List helper lemmas -/

theorem getD_set_self {α : Type} {l : List α} {i : Nat} (h : i < l.length)
    (a d : α) : (l.set i a).getD i d = a := by
  rw [List.getD_eq_getElem _ _ (by simpa using h)]
  simp [List.getElem_set]

theorem getD_set_ne {α : Type} {l : List α} {i j : Nat} (h : j ≠ i)
    (a d : α) : (l.set i a).getD j d = l.getD j d := by
  rcases Nat.lt_or_ge j l.length with hj | hj
  · rw [List.getD_eq_getElem _ _ (by simpa using hj),
      List.getD_eq_getElem _ _ hj]
    simp [List.getElem_set, h.symm]
  · rw [List.getD_eq_default _ _ (by simpa using hj),
      List.getD_eq_default _ _ hj]

theorem chOf_setCh_self {s : AspeedINTCState} {i : Nat}
    (h : i < s.channels.length) (ch : Channel) :
    chOf (setCh s i ch) i = ch :=
  getD_set_self h ch Channel.empty

theorem chOf_setCh_ne {s : AspeedINTCState} {i j : Nat} (h : j ≠ i)
    (ch : Channel) : chOf (setCh s i ch) j = chOf s j :=
  getD_set_ne h ch Channel.empty

theorem pinOf_setCh (s : AspeedINTCState) (i : Nat) (ch : Channel)
    (j : Nat) : pinOf (setCh s i ch) j = pinOf s j := rfl

theorem setCh_channels_length (s : AspeedINTCState) (i : Nat) (ch : Channel) :
    (setCh s i ch).channels.length = s.channels.length := by
  simp [setCh]

theorem setCh_outputPins (s : AspeedINTCState) (i : Nat) (ch : Channel) :
    (setCh s i ch).outputPins = s.outputPins := rfl

/-! ### Bit-level helper lemmas

`x &&& e = x` says every bit of `x` is a bit of `e`; we use it as the
"subset" relation between bitmasks. -/

theorem testBit_of_land_self {x e : Nat} (h : x &&& e = x) (i : Nat)
    (hx : x.testBit i = true) : e.testBit i = true := by
  have hb := congrArg (fun n => n.testBit i) h
  simp only [Nat.testBit_land, hx, Bool.true_and] at hb
  exact hb

theorem land_self_of_testBit {x e : Nat}
    (h : ∀ i, x.testBit i = true → e.testBit i = true) : x &&& e = x := by
  apply Nat.eq_of_testBit_eq
  intro i
  rw [Nat.testBit_land]
  cases hx : x.testBit i
  · rfl
  · simp [h i hx]

theorem select_land_enable (m e : Nat) :
    (m &&& e &&& 0xffffffff) &&& e = m &&& e &&& 0xffffffff := by
  apply land_self_of_testBit
  intro i hi
  simp only [Nat.testBit_land, Bool.and_eq_true] at hi
  exact hi.1.2

theorem lor_land_self {x y e : Nat} (hx : x &&& e = x) (hy : y &&& e = y) :
    (x ||| y) &&& e = x ||| y := by
  apply land_self_of_testBit
  intro i hi
  rw [Nat.testBit_lor] at hi
  rcases Bool.or_eq_true_iff.mp hi with h1 | h1
  · exact testBit_of_land_self hx i h1
  · exact testBit_of_land_self hy i h1

theorem land_lor_right {x e d : Nat} (h : x &&& e = x) :
    x &&& (e ||| d) = x := by
  apply land_self_of_testBit
  intro i hi
  rw [Nat.testBit_lor]
  exact Bool.or_eq_true_iff.mpr (Or.inl (testBit_of_land_self h i hi))

/-! ### Branch characterizations of the operations -/

theorem update_valid {s : AspeedINTCState} {inpin outpin : Nat}
    (h1 : inpin < s.channels.length) (h2 : outpin < s.outputPins.length)
    (level : Bool) :
    aspeed_intc_update s inpin outpin level =
      { s with outputPins := s.outputPins.set outpin level } := by
  unfold aspeed_intc_update
  rw [if_neg (Nat.not_le.mpr h1), if_neg (Nat.not_le.mpr h2)]

theorem update_channels (s : AspeedINTCState) (inpin outpin : Nat)
    (level : Bool) :
    (aspeed_intc_update s inpin outpin level).channels = s.channels := by
  unfold aspeed_intc_update
  split
  · rfl
  · split <;> rfl

theorem set_irq_out {s : AspeedINTCState} {irq : Nat}
    (h : s.channels.length ≤ irq) (level : Bool) (asserted : Nat) :
    aspeed_intc_set_irq s irq level asserted = s := by
  unfold aspeed_intc_set_irq
  rw [if_pos h]

theorem set_irq_low (s : AspeedINTCState) (irq : Nat) (asserted : Nat) :
    aspeed_intc_set_irq s irq false asserted = s := by
  unfold aspeed_intc_set_irq
  split
  · rfl
  · rfl

theorem set_irq_nosel {s : AspeedINTCState} {irq : Nat} {asserted : Nat}
    (h : irq < s.channels.length)
    (hsel : asserted &&& (chOf s irq).enable &&& 0xffffffff = 0) :
    aspeed_intc_set_irq s irq true asserted = s := by
  unfold aspeed_intc_set_irq
  rw [if_neg (Nat.not_le.mpr h)]
  rw [if_neg (by simp : ¬ (true = false)), if_pos hsel]

theorem set_irq_busy {s : AspeedINTCState} {irq : Nat} {asserted : Nat}
    (h : irq < s.channels.length)
    (hsel : asserted &&& (chOf s irq).enable &&& 0xffffffff ≠ 0)
    (hbusy : (chOf s irq).mask ≠ 0 ∨ (chOf s irq).regStatus ≠ 0) :
    aspeed_intc_set_irq s irq true asserted =
      setCh s irq { chOf s irq with
        pending := (chOf s irq).pending |||
          (asserted &&& (chOf s irq).enable &&& 0xffffffff) } := by
  unfold aspeed_intc_set_irq
  rw [if_neg (Nat.not_le.mpr h)]
  rw [if_neg (by simp : ¬ (true = false)), if_neg hsel, if_pos hbusy]

theorem set_irq_fire {s : AspeedINTCState} {irq : Nat} {asserted : Nat}
    (h : irq < s.channels.length)
    (hsel : asserted &&& (chOf s irq).enable &&& 0xffffffff ≠ 0)
    (hmask : (chOf s irq).mask = 0) (hst : (chOf s irq).regStatus = 0) :
    aspeed_intc_set_irq s irq true asserted =
      aspeed_intc_update
        (setCh s irq { chOf s irq with
          regStatus := asserted &&& (chOf s irq).enable &&& 0xffffffff })
        irq irq true := by
  unfold aspeed_intc_set_irq
  rw [if_neg (Nat.not_le.mpr h)]
  rw [if_neg (by simp : ¬ (true = false)), if_neg hsel,
    if_neg (by simp [hmask, hst] :
      ¬ ((chOf s irq).mask ≠ 0 ∨ (chOf s irq).regStatus ≠ 0))]

theorem enable_out {s : AspeedINTCState} {irq : Nat}
    (h : s.channels.length ≤ irq) (data : Nat) :
    aspeed_intc_enable_handler s irq data = s := by
  unfold aspeed_intc_enable_handler
  rw [if_pos h]

theorem enable_disable {s : AspeedINTCState} {irq : Nat}
    (h : irq < s.channels.length) (h0 : (chOf s irq).enable = 0) :
    aspeed_intc_enable_handler s irq 0 =
      setCh s irq { chOf s irq with regEnable := 0 } := by
  unfold aspeed_intc_enable_handler
  rw [if_neg (Nat.not_le.mpr h), if_pos ⟨rfl, h0⟩]

theorem enable_new {s : AspeedINTCState} {irq : Nat} {data : Nat}
    (h : irq < s.channels.length)
    (hne : (chOf s irq).enable ||| data ≠ (chOf s irq).enable) :
    aspeed_intc_enable_handler s irq data =
      setCh s irq { chOf s irq with
        enable := (chOf s irq).enable ||| data, regEnable := data } := by
  have hd : data ≠ 0 := by
    intro h0
    exact hne (h0 ▸ Nat.or_zero _)
  unfold aspeed_intc_enable_handler
  rw [if_neg (Nat.not_le.mpr h), if_neg (by simp [hd]), if_pos hne]

theorem enable_unmask {s : AspeedINTCState} {irq : Nat} {data : Nat}
    (h : irq < s.channels.length)
    (h0 : ¬ (data = 0 ∧ (chOf s irq).enable = 0))
    (heq : (chOf s irq).enable ||| data = (chOf s irq).enable)
    (hchg : ((chOf s irq).regEnable ^^^ data) &&& data ≠ 0) :
    aspeed_intc_enable_handler s irq data =
      setCh s irq { chOf s irq with
        mask := (chOf s irq).mask &&& compl32 ((chOf s irq).regEnable ^^^ data),
        regEnable := data } := by
  unfold aspeed_intc_enable_handler
  rw [if_neg (Nat.not_le.mpr h), if_neg h0, if_neg (by simp [heq]),
    if_pos hchg]

theorem enable_mask {s : AspeedINTCState} {irq : Nat} {data : Nat}
    (h : irq < s.channels.length)
    (h0 : ¬ (data = 0 ∧ (chOf s irq).enable = 0))
    (heq : (chOf s irq).enable ||| data = (chOf s irq).enable)
    (hchg : ((chOf s irq).regEnable ^^^ data) &&& data = 0) :
    aspeed_intc_enable_handler s irq data =
      setCh s irq { chOf s irq with
        mask := (chOf s irq).mask ||| ((chOf s irq).regEnable ^^^ data),
        regEnable := data } := by
  unfold aspeed_intc_enable_handler
  rw [if_neg (Nat.not_le.mpr h), if_neg h0, if_neg (by simp [heq]),
    if_neg (by simp [hchg])]

theorem status_zero (s : AspeedINTCState) (irq : Nat) :
    aspeed_intc_status_handler s irq 0 = s := by
  unfold aspeed_intc_status_handler
  rw [if_pos rfl]

theorem status_out {s : AspeedINTCState} {irq : Nat} {data : Nat}
    (hd : data ≠ 0) (h : s.channels.length ≤ irq) :
    aspeed_intc_status_handler s irq data = s := by
  unfold aspeed_intc_status_handler
  rw [if_neg hd, if_pos h]

theorem status_allones {s : AspeedINTCState} {irq : Nat}
    (h : irq < s.channels.length) :
    aspeed_intc_status_handler s irq 0xffffffff =
      setCh s irq { chOf s irq with
        regStatus := (chOf s irq).regStatus &&& compl32 0xffffffff } := by
  unfold aspeed_intc_status_handler
  rw [if_neg (by decide), if_neg (Nat.not_le.mpr h), if_pos rfl]

theorem status_replay {s : AspeedINTCState} {irq : Nat} {data : Nat}
    (hd : data ≠ 0) (h : irq < s.channels.length) (hne : data ≠ 0xffffffff)
    (hcl : (chOf s irq).regStatus &&& compl32 data = 0)
    (hp : (chOf s irq).pending ≠ 0) :
    aspeed_intc_status_handler s irq data =
      aspeed_intc_update
        (setCh s irq { chOf s irq with
          regStatus := (chOf s irq).pending, pending := 0 })
        irq irq true := by
  unfold aspeed_intc_status_handler
  rw [if_neg hd, if_neg (Nat.not_le.mpr h), if_neg hne, if_pos hcl,
    if_pos hp]

theorem status_drop {s : AspeedINTCState} {irq : Nat} {data : Nat}
    (hd : data ≠ 0) (h : irq < s.channels.length) (hne : data ≠ 0xffffffff)
    (hcl : (chOf s irq).regStatus &&& compl32 data = 0)
    (hp : (chOf s irq).pending = 0) :
    aspeed_intc_status_handler s irq data =
      aspeed_intc_update
        (setCh s irq { chOf s irq with
          regStatus := (chOf s irq).regStatus &&& compl32 data })
        irq irq false := by
  unfold aspeed_intc_status_handler
  rw [if_neg hd, if_neg (Nat.not_le.mpr h), if_neg hne, if_pos hcl,
    if_neg (by simp [hp])]

theorem status_keep {s : AspeedINTCState} {irq : Nat} {data : Nat}
    (hd : data ≠ 0) (h : irq < s.channels.length) (hne : data ≠ 0xffffffff)
    (hcl : (chOf s irq).regStatus &&& compl32 data ≠ 0) :
    aspeed_intc_status_handler s irq data =
      setCh s irq { chOf s irq with
        regStatus := (chOf s irq).regStatus &&& compl32 data } := by
  unfold aspeed_intc_status_handler
  rw [if_neg hd, if_neg (Nat.not_le.mpr h), if_neg hne, if_neg hcl]

/-! ### The reachable-state invariant -/

theorem chOf_withPins (s : AspeedINTCState) (pins : List Bool) (i : Nat) :
    chOf { s with outputPins := pins } i = chOf s i := rfl

theorem land_lor_self_right (x e : Nat) : x &&& (e ||| x) = x := by
  apply land_self_of_testBit
  intro i hi
  rw [Nat.testBit_lor]
  exact Bool.or_eq_true_iff.mpr (Or.inr hi)

/-- Per-channel coupling maintained on every reachable state: `pending`
and the raw enable-register mirror hold only enabled bits, and a
non-zero latched status forces the channel's output line high. -/
def ChRel (ch : Channel) (line : Bool) : Prop :=
  ch.pending &&& ch.enable = ch.pending ∧
    ch.regEnable &&& ch.enable = ch.regEnable ∧
    (ch.regStatus ≠ 0 → line = true)

instance (ch : Channel) (line : Bool) : Decidable (ChRel ch line) := by
  unfold ChRel
  infer_instance

/-- The aggregator invariant: the AST2700 configuration has 9 input and
9 output channels and every channel satisfies `ChRel` with its line. -/
def IntcInv (s : AspeedINTCState) : Prop :=
  s.channels.length = 9 ∧ s.outputPins.length = 9 ∧
    ∀ i, i < 9 → ChRel (chOf s i) (pinOf s i)

instance (s : AspeedINTCState) : Decidable (IntcInv s) := by
  unfold IntcInv
  infer_instance

theorem inv_init : IntcInv initState := by decide

theorem inv_set_irq {s : AspeedINTCState} (hs : IntcInv s) (irq : Nat)
    (level : Bool) (asserted : Nat) :
    IntcInv (aspeed_intc_set_irq s irq level asserted) := by
  obtain ⟨hlen, hplen, hch⟩ := hs
  by_cases hirq : s.channels.length ≤ irq
  · rw [set_irq_out hirq]
    exact ⟨hlen, hplen, hch⟩
  · have h : irq < s.channels.length := Nat.not_le.mp hirq
    have h9 : irq < 9 := hlen ▸ h
    cases level with
    | false =>
      rw [set_irq_low]
      exact ⟨hlen, hplen, hch⟩
    | true =>
      by_cases hsel : asserted &&& (chOf s irq).enable &&& 0xffffffff = 0
      · rw [set_irq_nosel h hsel]
        exact ⟨hlen, hplen, hch⟩
      · by_cases hbusy : (chOf s irq).mask ≠ 0 ∨ (chOf s irq).regStatus ≠ 0
        · rw [set_irq_busy h hsel hbusy]
          refine ⟨by simpa [setCh] using hlen, hplen, ?_⟩
          intro i hi
          rcases eq_or_ne i irq with hiq | hiq
          · subst hiq
            rw [chOf_setCh_self h, pinOf_setCh]
            obtain ⟨hpend, hraw, hline⟩ := hch i hi
            exact ⟨lor_land_self hpend (select_land_enable _ _), hraw, hline⟩
          · rw [chOf_setCh_ne hiq, pinOf_setCh]
            exact hch i hi
        · have hmask : (chOf s irq).mask = 0 :=
            not_ne_iff.mp fun hm => hbusy (Or.inl hm)
          have hst : (chOf s irq).regStatus = 0 :=
            not_ne_iff.mp fun hm => hbusy (Or.inr hm)
          have hout : irq < s.outputPins.length := by omega
          rw [set_irq_fire h hsel hmask hst,
            update_valid (by simpa [setCh] using h)
              (by simpa [setCh] using hout) true]
          refine ⟨by simpa [setCh] using hlen, by simpa using hplen, ?_⟩
          intro i hi
          rcases eq_or_ne i irq with hiq | hiq
          · subst hiq
            rw [chOf_withPins, chOf_setCh_self h]
            obtain ⟨hpend, hraw, hline⟩ := hch i hi
            refine ⟨hpend, hraw, fun _ => ?_⟩
            show (s.outputPins.set i true).getD i false = true
            rw [getD_set_self hout]
          · rw [chOf_withPins, chOf_setCh_ne hiq]
            obtain ⟨hpend, hraw, hline⟩ := hch i hi
            refine ⟨hpend, hraw, fun hnz => ?_⟩
            show (s.outputPins.set irq true).getD i false = true
            rw [getD_set_ne hiq]
            exact hline hnz

theorem inv_setCh_of {s : AspeedINTCState} (hlen : s.channels.length = 9)
    (hplen : s.outputPins.length = 9)
    (hch : ∀ i, i < 9 → ChRel (chOf s i) (pinOf s i))
    {irq : Nat} (h : irq < s.channels.length) {ch' : Channel}
    (hrel : ChRel ch' (pinOf s irq)) : IntcInv (setCh s irq ch') := by
  refine ⟨by simpa [setCh] using hlen, hplen, ?_⟩
  intro i hi
  rcases eq_or_ne i irq with hiq | hiq
  · subst hiq
    rw [chOf_setCh_self h, pinOf_setCh]
    exact hrel
  · rw [chOf_setCh_ne hiq, pinOf_setCh]
    exact hch i hi

theorem compl32_allones : compl32 0xffffffff = 0 := by
  unfold compl32
  rw [Nat.and_self, Nat.xor_self]

theorem inv_enable {s : AspeedINTCState} (hs : IntcInv s) (irq : Nat)
    (data : Nat) : IntcInv (aspeed_intc_enable_handler s irq data) := by
  obtain ⟨hlen, hplen, hch⟩ := hs
  by_cases hirq : s.channels.length ≤ irq
  · rw [enable_out hirq]
    exact ⟨hlen, hplen, hch⟩
  · have h : irq < s.channels.length := Nat.not_le.mp hirq
    have h9 : irq < 9 := hlen ▸ h
    obtain ⟨hpend, hraw, hline⟩ := hch irq h9
    by_cases h0 : data = 0 ∧ (chOf s irq).enable = 0
    · obtain ⟨hd0, he0⟩ := h0
      subst hd0
      rw [enable_disable h he0]
      exact inv_setCh_of hlen hplen hch h ⟨hpend, Nat.zero_and _, hline⟩
    · by_cases hne : (chOf s irq).enable ||| data ≠ (chOf s irq).enable
      · rw [enable_new h hne]
        exact inv_setCh_of hlen hplen hch h
          ⟨land_lor_right hpend, land_lor_self_right _ _, hline⟩
      · have heq : (chOf s irq).enable ||| data = (chOf s irq).enable :=
          not_ne_iff.mp hne
        have hdata : data &&& (chOf s irq).enable = data := by
          rw [← heq]
          exact land_lor_self_right _ _
        by_cases hchg : ((chOf s irq).regEnable ^^^ data) &&& data ≠ 0
        · rw [enable_unmask h h0 heq hchg]
          exact inv_setCh_of hlen hplen hch h ⟨hpend, hdata, hline⟩
        · rw [enable_mask h h0 heq (not_ne_iff.mp hchg)]
          exact inv_setCh_of hlen hplen hch h ⟨hpend, hdata, hline⟩

theorem inv_status {s : AspeedINTCState} (hs : IntcInv s) (irq : Nat)
    (data : Nat) : IntcInv (aspeed_intc_status_handler s irq data) := by
  obtain ⟨hlen, hplen, hch⟩ := hs
  by_cases hd : data = 0
  · subst hd
    rw [status_zero]
    exact ⟨hlen, hplen, hch⟩
  · by_cases hirq : s.channels.length ≤ irq
    · rw [status_out hd hirq]
      exact ⟨hlen, hplen, hch⟩
    · have h : irq < s.channels.length := Nat.not_le.mp hirq
      have h9 : irq < 9 := hlen ▸ h
      have hout : irq < s.outputPins.length := by omega
      obtain ⟨hpend, hraw, hline⟩ := hch irq h9
      by_cases hff : data = 0xffffffff
      · subst hff
        rw [status_allones h]
        refine inv_setCh_of hlen hplen hch h ⟨hpend, hraw, fun hnz => ?_⟩
        exact absurd (by rw [compl32_allones, Nat.and_zero]) hnz
      · by_cases hcl : (chOf s irq).regStatus &&& compl32 data = 0
        · by_cases hp : (chOf s irq).pending = 0
          · rw [status_drop hd h hff hcl hp,
              update_valid (by simpa [setCh] using h)
                (by simpa [setCh] using hout) false]
            refine ⟨by simpa [setCh] using hlen, by simpa using hplen, ?_⟩
            intro i hi
            rcases eq_or_ne i irq with hiq | hiq
            · subst hiq
              rw [chOf_withPins, chOf_setCh_self h]
              exact ⟨hpend, hraw, fun hnz => absurd hcl hnz⟩
            · rw [chOf_withPins, chOf_setCh_ne hiq]
              obtain ⟨hp2, hr2, hl2⟩ := hch i hi
              refine ⟨hp2, hr2, fun hnz => ?_⟩
              show (s.outputPins.set irq false).getD i false = true
              rw [getD_set_ne hiq]
              exact hl2 hnz
          · rw [status_replay hd h hff hcl hp,
              update_valid (by simpa [setCh] using h)
                (by simpa [setCh] using hout) true]
            refine ⟨by simpa [setCh] using hlen, by simpa using hplen, ?_⟩
            intro i hi
            rcases eq_or_ne i irq with hiq | hiq
            · subst hiq
              rw [chOf_withPins, chOf_setCh_self h]
              refine ⟨Nat.zero_and _, hraw, fun _ => ?_⟩
              show (s.outputPins.set i true).getD i false = true
              rw [getD_set_self hout]
            · rw [chOf_withPins, chOf_setCh_ne hiq]
              obtain ⟨hp2, hr2, hl2⟩ := hch i hi
              refine ⟨hp2, hr2, fun hnz => ?_⟩
              show (s.outputPins.set irq true).getD i false = true
              rw [getD_set_ne hiq]
              exact hl2 hnz
        · rw [status_keep hd h hff hcl]
          refine inv_setCh_of hlen hplen hch h ⟨hpend, hraw, fun _ => ?_⟩
          exact hline fun hz => hcl (by rw [hz, Nat.zero_and])

theorem reachable_inv {s : AspeedINTCState} (h : Reachable s) : IntcInv s := by
  induction h with
  | init => exact inv_init
  | set_irq _ irq level asserted ih => exact inv_set_irq ih irq level asserted
  | enable _ irq data _ ih => exact inv_enable ih irq data
  | status _ irq data _ ih => exact inv_status ih irq data

/-- On every reachable state the raw enable mirror only holds enabled
bits (the hypothesis of the C5 theorem below). -/
theorem reachable_regEnable_subset {s : AspeedINTCState} (hs : Reachable s)
    (c : Nat) (hc : c < 9) :
    (chOf s c).regEnable &&& (chOf s c).enable = (chOf s c).regEnable :=
  ((reachable_inv hs).2.2 c hc).2.1

/-! ### Further structural lemmas -/

theorem chOf_update (s : AspeedINTCState) (inpin outpin : Nat) (level : Bool)
    (j : Nat) : chOf (aspeed_intc_update s inpin outpin level) j = chOf s j := by
  unfold aspeed_intc_update
  split
  · rfl
  · split <;> rfl

theorem pinOf_update_ne {s : AspeedINTCState} {outpin j : Nat} (hj : j ≠ outpin)
    (inpin : Nat) (level : Bool) :
    pinOf (aspeed_intc_update s inpin outpin level) j = pinOf s j := by
  unfold aspeed_intc_update
  split
  · rfl
  · split
    · rfl
    · show (s.outputPins.set outpin level).getD j false = pinOf s j
      rw [getD_set_ne hj]
      rfl

theorem set_irq_shape (s : AspeedINTCState) (c : Nat) (level : Bool)
    (m : Nat) :
    aspeed_intc_set_irq s c level m = s ∨
      (∃ ch, aspeed_intc_set_irq s c level m = setCh s c ch) ∨
      (∃ ch l, aspeed_intc_set_irq s c level m =
        aspeed_intc_update (setCh s c ch) c c l) := by
  unfold aspeed_intc_set_irq
  dsimp only
  split
  · exact Or.inl rfl
  · split
    · exact Or.inl rfl
    · split
      · exact Or.inl rfl
      · split
        · exact Or.inr (Or.inl ⟨_, rfl⟩)
        · exact Or.inr (Or.inr ⟨_, _, rfl⟩)

theorem enable_shape (s : AspeedINTCState) (c : Nat) (v : Nat) :
    aspeed_intc_enable_handler s c v = s ∨
      (∃ ch, aspeed_intc_enable_handler s c v = setCh s c ch) := by
  unfold aspeed_intc_enable_handler
  dsimp only
  split
  · exact Or.inl rfl
  · split
    · exact Or.inr ⟨_, rfl⟩
    · split
      · exact Or.inr ⟨_, rfl⟩
      · split
        · exact Or.inr ⟨_, rfl⟩
        · exact Or.inr ⟨_, rfl⟩

theorem status_shape (s : AspeedINTCState) (c : Nat) (w : Nat) :
    aspeed_intc_status_handler s c w = s ∨
      (∃ ch, aspeed_intc_status_handler s c w = setCh s c ch) ∨
      (∃ ch l, aspeed_intc_status_handler s c w =
        aspeed_intc_update (setCh s c ch) c c l) := by
  unfold aspeed_intc_status_handler
  dsimp only
  split
  · exact Or.inl rfl
  · split
    · exact Or.inl rfl
    · split
      · exact Or.inr (Or.inl ⟨_, rfl⟩)
      · split
        · split
          · exact Or.inr (Or.inr ⟨_, _, rfl⟩)
          · exact Or.inr (Or.inr ⟨_, _, rfl⟩)
        · exact Or.inr (Or.inl ⟨_, rfl⟩)

theorem frame_of_shape {s R : AspeedINTCState} {c j : Nat} (hj : j ≠ c)
    (h : R = s ∨ (∃ ch, R = setCh s c ch) ∨
      (∃ ch l, R = aspeed_intc_update (setCh s c ch) c c l)) :
    chOf R j = chOf s j ∧ pinOf R j = pinOf s j := by
  rcases h with rfl | ⟨ch, rfl⟩ | ⟨ch, l, rfl⟩
  · exact ⟨rfl, rfl⟩
  · exact ⟨chOf_setCh_ne hj ch, rfl⟩
  · constructor
    · rw [chOf_update]
      exact chOf_setCh_ne hj ch
    · rw [pinOf_update_ne hj]
      rfl

/-! ### Concrete reachable states used below

`stEnabled` : after reset, source 0 of channel 0 is enabled.
`stLatched` : source 0 then asserts; status latches bit 0, line 0 high.
`stMerged`  : source 0 re-asserts while latched; bit 0 joins `pending`
              while still set in `status`.
`stAllOnes` : all-ones status write from `stLatched`; status cleared but
              the line is left high. -/

def stEnabled : AspeedINTCState := aspeed_intc_enable_handler initState 0 1

def stLatched : AspeedINTCState := aspeed_intc_set_irq stEnabled 0 true 1

def stMerged : AspeedINTCState := aspeed_intc_set_irq stLatched 0 true 1

def stAllOnes : AspeedINTCState :=
  aspeed_intc_status_handler stLatched 0 0xffffffff

theorem stEnabled_reachable : Reachable stEnabled :=
  Reachable.enable Reachable.init 0 1 (by decide)

theorem stLatched_reachable : Reachable stLatched :=
  Reachable.set_irq stEnabled_reachable 0 true 1

theorem stMerged_reachable : Reachable stMerged :=
  Reachable.set_irq stLatched_reachable 0 true 1

theorem stAllOnes_reachable : Reachable stAllOnes :=
  Reachable.status stLatched_reachable 0 0xffffffff (by decide)

/-! ### Claim theorems -/

/-- Claim C1 (amended): in every reachable state of the aggregator and for
every valid channel `c < 9`, a non-zero `status[c]` implies that the
output line mapped to channel `c` is driven high.  (The converse
direction of the claimed iff — line high implies non-zero status — fails
after an all-ones status write; see the counterexample.) -/
theorem c1_status_nonzero_line_high {s : AspeedINTCState}
    (hs : Reachable s) (c : Nat) (hc : c < 9)
    (hnz : (chOf s c).regStatus ≠ 0) : pinOf s c = true :=
  ((reachable_inv hs).2.2 c hc).2.2 hnz

theorem c1_witness :
    Reachable stLatched ∧ 0 < 9 ∧ (chOf stLatched 0).regStatus ≠ 0 ∧
      pinOf stLatched 0 = true :=
  ⟨stLatched_reachable, by decide, by decide,
    c1_status_nonzero_line_high stLatched_reachable 0 (by decide) (by decide)⟩

/-- Claim C1 counterexample: `stAllOnes` is reachable (reset; enable bit 0
of channel 0; source 0 asserts; firmware writes `0xFFFFFFFF` to the
status register), its channel-0 status is zero, yet output line 0 is
still high — so `status[c] != 0 ⇔ line high` does not hold in every
reachable state, and `write_status` does not preserve the lockstep. -/
theorem c1_counterexample :
    Reachable stAllOnes ∧ (chOf stAllOnes 0).regStatus = 0 ∧
      pinOf stAllOnes 0 = true :=
  ⟨stAllOnes_reachable, by decide, by decide⟩

/-- Claim C6 (amended): a source bit can be set in both `status[c]` and
`pending[c]` at the same time (a still-asserted, enabled source that is
re-notified while latched is merged into `pending`); what does hold on
every reachable state is that `pending[c]` contains only enabled bits —
`pending` only ever receives bits that were asserted-and-enabled at
notification time. -/
theorem c6_pending_subset_enable {s : AspeedINTCState}
    (hs : Reachable s) (c : Nat) (hc : c < 9) :
    (chOf s c).pending &&& (chOf s c).enable = (chOf s c).pending :=
  ((reachable_inv hs).2.2 c hc).1

theorem c6_witness :
    Reachable stMerged ∧ 0 < 9 ∧
      (chOf stMerged 0).pending &&& (chOf stMerged 0).enable =
        (chOf stMerged 0).pending :=
  ⟨stMerged_reachable, by decide,
    c6_pending_subset_enable stMerged_reachable 0 (by decide)⟩

/-- Claim C6 counterexample: the reachable state `stMerged` (reset;
enable bit 0 of channel 0; source 0 asserts twice) has bit 0 set in both
`status[0]` and `pending[0]`, refuting
`status[c] &&& pending[c] == 0` as a reachable-state invariant. -/
theorem c6_counterexample :
    Reachable stMerged ∧
      (chOf stMerged 0).regStatus &&& (chOf stMerged 0).pending ≠ 0 :=
  ⟨stMerged_reachable, by decide⟩

/-- Claim C9: each of `notify` (`aspeed_intc_set_irq`), `write_enable`
(`aspeed_intc_enable_handler`) and `write_status`
(`aspeed_intc_status_handler`) called with a channel index at or past the
configured number of input channels leaves the whole aggregator state —
all channel state and all output lines — unchanged. -/
theorem c9_out_of_range_rejected (s : AspeedINTCState) (c : Nat)
    (level : Bool) (m v w : Nat) (hc : s.channels.length ≤ c) :
    aspeed_intc_set_irq s c level m = s ∧
      aspeed_intc_enable_handler s c v = s ∧
      aspeed_intc_status_handler s c w = s := by
  refine ⟨set_irq_out hc level m, enable_out hc v, ?_⟩
  by_cases hw : w = 0
  · subst hw
    exact status_zero s c
  · exact status_out hw hc

theorem c9_witness :
    initState.channels.length ≤ 9 ∧
      (aspeed_intc_set_irq initState 9 true 1 = initState ∧
        aspeed_intc_enable_handler initState 9 5 = initState ∧
        aspeed_intc_status_handler initState 9 5 = initState) :=
  ⟨by decide, c9_out_of_range_rejected initState 9 true 1 5 5 (by decide)⟩

/-- Claim C10 (frame): an operation on a valid channel `c` — `notify`,
`write_enable` or `write_status`, with any arguments — leaves every other
channel `j ≠ c` (its `enable`, `mask`, `pending` and both raw register
mirrors) and every output line other than `c`'s unchanged. -/
theorem c10_frame (s : AspeedINTCState) (c : Nat) (level : Bool)
    (m v w : Nat) (j : Nat) (hc : c < s.channels.length) (hj : j ≠ c) :
    chOf (aspeed_intc_set_irq s c level m) j = chOf s j ∧
      pinOf (aspeed_intc_set_irq s c level m) j = pinOf s j ∧
      chOf (aspeed_intc_enable_handler s c v) j = chOf s j ∧
      pinOf (aspeed_intc_enable_handler s c v) j = pinOf s j ∧
      chOf (aspeed_intc_status_handler s c w) j = chOf s j ∧
      pinOf (aspeed_intc_status_handler s c w) j = pinOf s j := by
  obtain ⟨h1, h2⟩ := frame_of_shape hj (set_irq_shape s c level m)
  obtain ⟨h3, h4⟩ := frame_of_shape hj
    ((enable_shape s c v).imp id fun h => Or.inl h)
  obtain ⟨h5, h6⟩ := frame_of_shape hj (status_shape s c w)
  exact ⟨h1, h2, h3, h4, h5, h6⟩

theorem c10_witness :
    (0 < stLatched.channels.length ∧ (1 : Nat) ≠ 0) ∧
      chOf (aspeed_intc_status_handler stLatched 0 1) 1 = chOf stLatched 1 ∧
      pinOf (aspeed_intc_status_handler stLatched 0 1) 1 = pinOf stLatched 1 :=
  ⟨⟨by decide, by decide⟩,
    (c10_frame stLatched 0 true 1 1 1 1 (by decide) (by decide)).2.2.2.2⟩

/-- Claim C2: a `notify` call with an asserted level on a valid channel
`c` computes `select = asserted_mask & enabled[c]` (over the 32 source
bits); if `select = 0` nothing changes; if the channel is busy
(`status[c] ≠ 0` or `masked[c] ≠ 0`) then `select` is merged into
`pending[c]` and status and the output line are untouched; otherwise
`status[c]` becomes `select` and output line `c` is driven high. -/
theorem c2_notify_spec (s : AspeedINTCState) (c : Nat) (m : Nat)
    (hc : c < s.channels.length) (hp : c < s.outputPins.length) :
    (m &&& (chOf s c).enable &&& 0xffffffff = 0 →
      aspeed_intc_set_irq s c true m = s) ∧
    (m &&& (chOf s c).enable &&& 0xffffffff ≠ 0 →
      ((chOf s c).regStatus ≠ 0 ∨ (chOf s c).mask ≠ 0 →
        aspeed_intc_set_irq s c true m =
          setCh s c { chOf s c with
            pending := (chOf s c).pending |||
              (m &&& (chOf s c).enable &&& 0xffffffff) }) ∧
      ((chOf s c).regStatus = 0 → (chOf s c).mask = 0 →
        aspeed_intc_set_irq s c true m =
          { channels := s.channels.set c { chOf s c with
              regStatus := m &&& (chOf s c).enable &&& 0xffffffff }
            outputPins := s.outputPins.set c true })) := by
  refine ⟨fun hsel => set_irq_nosel hc hsel,
    fun hsel => ⟨fun hbusy => set_irq_busy hc hsel hbusy.symm,
      fun hst hm => ?_⟩⟩
  rw [set_irq_fire hc hsel hm hst,
    update_valid (by simpa [setCh] using hc) (by simpa [setCh] using hp) true]
  rfl

theorem c2_witness :
    (0 < stEnabled.channels.length ∧ 0 < stEnabled.outputPins.length ∧
      1 &&& (chOf stEnabled 0).enable &&& 0xffffffff ≠ 0 ∧
      (chOf stEnabled 0).regStatus = 0 ∧ (chOf stEnabled 0).mask = 0) ∧
    aspeed_intc_set_irq stEnabled 0 true 1 =
      { channels := stEnabled.channels.set 0 { chOf stEnabled 0 with
          regStatus := 1 &&& (chOf stEnabled 0).enable &&& 0xffffffff }
        outputPins := stEnabled.outputPins.set 0 true } :=
  ⟨⟨by decide, by decide, by decide, by decide, by decide⟩,
    ((c2_notify_spec stEnabled 0 1 (by decide) (by decide)).2
      (by decide)).2 (by decide) (by decide)⟩

/-- Claim C3: a status write of `v` (with `v ≠ 0` and `v ≠ 0xFFFFFFFF`)
on a valid channel first clears the acknowledged bits,
`status[c] := status[c] & ~v`; if the result is 0 and `pending[c] ≠ 0`
the pending batch is replayed (`status[c] := pending[c]`,
`pending[c] := 0`) and the output line driven high; if the result is 0
and `pending[c] = 0` the output line is driven low; and if the result is
non-zero (partial acknowledgment) the output lines are untouched. -/
theorem c3_status_write_spec (s : AspeedINTCState) (c : Nat) (v : Nat)
    (hc : c < s.channels.length) (hp : c < s.outputPins.length)
    (hv0 : v ≠ 0) (hvf : v ≠ 0xffffffff) :
    ((chOf s c).regStatus &&& compl32 v = 0 → (chOf s c).pending ≠ 0 →
      aspeed_intc_status_handler s c v =
        { channels := s.channels.set c { chOf s c with
            regStatus := (chOf s c).pending, pending := 0 }
          outputPins := s.outputPins.set c true }) ∧
    ((chOf s c).regStatus &&& compl32 v = 0 → (chOf s c).pending = 0 →
      aspeed_intc_status_handler s c v =
        { channels := s.channels.set c { chOf s c with
            regStatus := (chOf s c).regStatus &&& compl32 v }
          outputPins := s.outputPins.set c false }) ∧
    ((chOf s c).regStatus &&& compl32 v ≠ 0 →
      aspeed_intc_status_handler s c v =
        setCh s c { chOf s c with
          regStatus := (chOf s c).regStatus &&& compl32 v }) := by
  refine ⟨fun hcl hpend => ?_, fun hcl hpend => ?_,
    fun hcl => status_keep hv0 hc hvf hcl⟩
  · rw [status_replay hv0 hc hvf hcl hpend,
      update_valid (by simpa [setCh] using hc) (by simpa [setCh] using hp)
        true]
    rfl
  · rw [status_drop hv0 hc hvf hcl hpend,
      update_valid (by simpa [setCh] using hc) (by simpa [setCh] using hp)
        false]
    rfl

theorem c3_witness :
    (0 < stMerged.channels.length ∧ 0 < stMerged.outputPins.length ∧
      (1 : Nat) ≠ 0 ∧ (1 : Nat) ≠ 0xffffffff ∧
      (chOf stMerged 0).regStatus &&& compl32 1 = 0 ∧
      (chOf stMerged 0).pending ≠ 0) ∧
    aspeed_intc_status_handler stMerged 0 1 =
      { channels := stMerged.channels.set 0 { chOf stMerged 0 with
          regStatus := (chOf stMerged 0).pending, pending := 0 }
        outputPins := stMerged.outputPins.set 0 true } :=
  ⟨⟨by decide, by decide, by decide, by decide, by decide, by decide⟩,
    (c3_status_write_spec stMerged 0 1 (by decide) (by decide) (by decide)
      (by decide)).1 (by decide) (by decide)⟩

/-- Claim C4: an all-ones status write on a valid channel clears every
bit of `status[c]` and returns without touching `pending[c]` and without
changing any output-line level — it never replays pending and never
de-asserts the line. -/
theorem c4_allones_reset_only (s : AspeedINTCState) (c : Nat)
    (hc : c < s.channels.length) :
    aspeed_intc_status_handler s c 0xffffffff =
      setCh s c { chOf s c with regStatus := 0 } ∧
    (chOf (aspeed_intc_status_handler s c 0xffffffff) c).regStatus = 0 ∧
    (chOf (aspeed_intc_status_handler s c 0xffffffff) c).pending =
      (chOf s c).pending ∧
    (aspeed_intc_status_handler s c 0xffffffff).outputPins =
      s.outputPins := by
  have heq : aspeed_intc_status_handler s c 0xffffffff =
      setCh s c { chOf s c with regStatus := 0 } := by
    rw [status_allones hc, compl32_allones, Nat.and_zero]
  refine ⟨heq, ?_, ?_, ?_⟩
  · rw [heq, chOf_setCh_self hc]
  · rw [heq, chOf_setCh_self hc]
  · rw [heq, setCh_outputPins]

theorem c4_witness :
    0 < stMerged.channels.length ∧
      aspeed_intc_status_handler stMerged 0 0xffffffff =
        setCh stMerged 0 { chOf stMerged 0 with regStatus := 0 } ∧
      (chOf (aspeed_intc_status_handler stMerged 0 0xffffffff) 0).regStatus
        = 0 ∧
      (chOf (aspeed_intc_status_handler stMerged 0 0xffffffff) 0).pending =
        (chOf stMerged 0).pending ∧
      (aspeed_intc_status_handler stMerged 0 0xffffffff).outputPins =
        stMerged.outputPins :=
  ⟨by decide, c4_allones_reset_only stMerged 0 (by decide)⟩

/-- Claim C5: `write_enable(c, v)` on a valid channel (in any state whose
raw enable mirror only holds enabled bits, as every reachable state
does): if `v` brings at least one bit not in `enabled[c]`, then
`enabled[c] := enabled[c] | v` and `masked[c]` is untouched; if `v`
brings no new bit, `enabled[c]` is unchanged and only `masked[c]` is
toggled according to `change = old_raw_mirror XOR v` (cleared when
`change & v ≠ 0`, set otherwise); and no `write_enable` call ever clears
a bit from `enabled[c]`. -/
theorem c5_enable_vs_mask (s : AspeedINTCState) (c : Nat) (v : Nat)
    (hc : c < s.channels.length)
    (hraw : (chOf s c).regEnable &&& (chOf s c).enable =
      (chOf s c).regEnable) :
    ((chOf s c).enable ||| v ≠ (chOf s c).enable →
      aspeed_intc_enable_handler s c v =
        setCh s c { chOf s c with
          enable := (chOf s c).enable ||| v, regEnable := v }) ∧
    ((chOf s c).enable ||| v = (chOf s c).enable →
      aspeed_intc_enable_handler s c v =
        setCh s c { chOf s c with
          mask := if ((chOf s c).regEnable ^^^ v) &&& v ≠ 0
            then (chOf s c).mask &&& compl32 ((chOf s c).regEnable ^^^ v)
            else (chOf s c).mask ||| ((chOf s c).regEnable ^^^ v),
          regEnable := v }) ∧
    (chOf s c).enable &&&
        (chOf (aspeed_intc_enable_handler s c v) c).enable =
      (chOf s c).enable := by
  have hself : (chOf s c).enable &&& (chOf s c).enable = (chOf s c).enable :=
    Nat.and_self _
  refine ⟨fun hne => enable_new hc hne, fun heq => ?_, ?_⟩
  · by_cases h0 : v = 0 ∧ (chOf s c).enable = 0
    · obtain ⟨h1, h2⟩ := h0
      subst h1
      have hre : (chOf s c).regEnable = 0 := by
        rw [h2, Nat.and_zero] at hraw
        exact hraw.symm
      rw [enable_disable hc h2, hre]
      simp
    · by_cases hchg : ((chOf s c).regEnable ^^^ v) &&& v ≠ 0
      · rw [enable_unmask hc h0 heq hchg, if_pos hchg]
      · rw [enable_mask hc h0 heq (not_ne_iff.mp hchg), if_neg hchg]
  · by_cases h0 : v = 0 ∧ (chOf s c).enable = 0
    · obtain ⟨h1, h2⟩ := h0
      subst h1
      rw [enable_disable hc h2, chOf_setCh_self hc]
      exact hself
    · by_cases hne : (chOf s c).enable ||| v ≠ (chOf s c).enable
      · rw [enable_new hc hne, chOf_setCh_self hc]
        exact land_lor_right hself
      · have heq := not_ne_iff.mp hne
        by_cases hchg : ((chOf s c).regEnable ^^^ v) &&& v ≠ 0
        · rw [enable_unmask hc h0 heq hchg, chOf_setCh_self hc]
          exact hself
        · rw [enable_mask hc h0 heq (not_ne_iff.mp hchg),
            chOf_setCh_self hc]
          exact hself

theorem c5_witness :
    (0 < stEnabled.channels.length ∧
      (chOf stEnabled 0).regEnable &&& (chOf stEnabled 0).enable =
        (chOf stEnabled 0).regEnable ∧
      (chOf stEnabled 0).enable ||| 2 ≠ (chOf stEnabled 0).enable) ∧
    aspeed_intc_enable_handler stEnabled 0 2 =
      setCh stEnabled 0 { chOf stEnabled 0 with
        enable := (chOf stEnabled 0).enable ||| 2, regEnable := 2 } :=
  ⟨⟨by decide, by decide, by decide⟩,
    (c5_enable_vs_mask stEnabled 0 2 (by decide) (by decide)).1 (by decide)⟩

/-- Claim C7 (amended): for a quiesced channel (`status`, `mask` and
`pending` all zero), two back-to-back `notify(c, m)` calls leave the same
status and the same output-line levels as one call.  When
`select = m & enabled[c] = 0` the two are literally the same state (both
calls are no-ops); when `select ≠ 0` the second call additionally merges
`select` into `pending[c]`, so the full states differ exactly in that
field — redundant notifies are NOT no-ops on `pending`. -/
theorem c7_notify_twice_spec (s : AspeedINTCState) (c : Nat) (m : Nat)
    (hc : c < s.channels.length) (hp : c < s.outputPins.length)
    (hst : (chOf s c).regStatus = 0) (hm : (chOf s c).mask = 0)
    (hpd : (chOf s c).pending = 0) :
    (m &&& (chOf s c).enable &&& 0xffffffff = 0 →
      aspeed_intc_set_irq (aspeed_intc_set_irq s c true m) c true m =
        aspeed_intc_set_irq s c true m) ∧
    (m &&& (chOf s c).enable &&& 0xffffffff ≠ 0 →
      aspeed_intc_set_irq s c true m =
        { channels := s.channels.set c { chOf s c with
            regStatus := m &&& (chOf s c).enable &&& 0xffffffff }
          outputPins := s.outputPins.set c true } ∧
      aspeed_intc_set_irq (aspeed_intc_set_irq s c true m) c true m =
        { channels := s.channels.set c { chOf s c with
            regStatus := m &&& (chOf s c).enable &&& 0xffffffff,
            pending := m &&& (chOf s c).enable &&& 0xffffffff }
          outputPins := s.outputPins.set c true }) := by
  constructor
  · intro hsel
    rw [set_irq_nosel hc hsel, set_irq_nosel hc hsel]
  · intro hsel
    have honce : aspeed_intc_set_irq s c true m =
        { channels := s.channels.set c { chOf s c with
            regStatus := m &&& (chOf s c).enable &&& 0xffffffff }
          outputPins := s.outputPins.set c true } := by
      rw [set_irq_fire hc hsel hm hst,
        update_valid (by simpa [setCh] using hc)
          (by simpa [setCh] using hp) true]
      rfl
    refine ⟨honce, ?_⟩
    rw [honce]
    have hcT : c < (s.channels.set c { chOf s c with
        regStatus := m &&& (chOf s c).enable &&& 0xffffffff }).length := by
      simpa using hc
    have hchT : chOf
        { channels := s.channels.set c { chOf s c with
            regStatus := m &&& (chOf s c).enable &&& 0xffffffff }
          outputPins := s.outputPins.set c true } c =
        { chOf s c with
          regStatus := m &&& (chOf s c).enable &&& 0xffffffff } :=
      getD_set_self hc _ _
    rw [set_irq_busy hcT (by rw [hchT]; exact hsel)
      (by rw [hchT]; exact Or.inr hsel)]
    rw [setCh, hchT]
    simp only [List.set_set]
    rw [hpd, Nat.zero_or]

theorem c7_witness :
    (0 < stEnabled.channels.length ∧ 0 < stEnabled.outputPins.length ∧
      (chOf stEnabled 0).regStatus = 0 ∧ (chOf stEnabled 0).mask = 0 ∧
      (chOf stEnabled 0).pending = 0 ∧
      1 &&& (chOf stEnabled 0).enable &&& 0xffffffff ≠ 0) ∧
    aspeed_intc_set_irq (aspeed_intc_set_irq stEnabled 0 true 1) 0 true 1 =
      { channels := stEnabled.channels.set 0 { chOf stEnabled 0 with
          regStatus := 1 &&& (chOf stEnabled 0).enable &&& 0xffffffff,
          pending := 1 &&& (chOf stEnabled 0).enable &&& 0xffffffff }
        outputPins := stEnabled.outputPins.set 0 true } :=
  ⟨⟨by decide, by decide, by decide, by decide, by decide, by decide⟩,
    ((c7_notify_twice_spec stEnabled 0 1 (by decide) (by decide)
      (by decide) (by decide) (by decide)).2 (by decide)).2⟩

/-- Claim C7 counterexample: from the reachable quiesced state
`stEnabled` (bit 0 of channel 0 enabled; status, mask and pending all
zero), calling `notify(0, 1)` twice in a row does NOT leave the
aggregator in the same state as calling it once — the second call merges
the still-asserted source bit into `pending[0]`. -/
theorem c7_counterexample :
    ((chOf stEnabled 0).regStatus = 0 ∧ (chOf stEnabled 0).mask = 0 ∧
      (chOf stEnabled 0).pending = 0) ∧
    aspeed_intc_set_irq (aspeed_intc_set_irq stEnabled 0 true 1) 0 true 1 ≠
      aspeed_intc_set_irq stEnabled 0 true 1 :=
  ⟨⟨by decide, by decide, by decide⟩, by decide⟩

/-- Claim C8 (amended): reads expose the current contents of the raw
register mirror, and only writes have semantic side effects — but a
status write does not leave the written value in the mirror.  Precisely:
reading an enable register immediately after `write_enable(c, v)`
returns exactly `v`; every register reads 0 after reset; and reading a
status register immediately after `write_status(c, v)` returns the
semantically updated status — the old status with `v`'s bits cleared,
or the replayed pending value when that clearing drained the register
(with `v ≠ 0xFFFFFFFF`) and pending was non-empty, or the old status
unchanged when `v = 0` — not the raw value `v` that was written. -/
theorem c8_read_raw_mirror (s : AspeedINTCState) (c : Nat) (v : Nat)
    (hc : c < s.channels.length) :
    aspeed_intc_read (aspeed_intc_enable_handler s c v) c
        RegKind.enableReg = v ∧
    (∀ k, aspeed_intc_read initState c k = 0) ∧
    aspeed_intc_read (aspeed_intc_status_handler s c v) c
        RegKind.statusReg =
      (if v = 0 then (chOf s c).regStatus
       else if (chOf s c).regStatus &&& compl32 v = 0 ∧ v ≠ 0xffffffff ∧
           (chOf s c).pending ≠ 0 then (chOf s c).pending
       else (chOf s c).regStatus &&& compl32 v) := by
  have hinit : chOf initState c = Channel.empty := by
    show (List.replicate 9 Channel.empty).getD c Channel.empty =
      Channel.empty
    rw [List.getD_eq_getElem?_getD]
    exact List.getElem?_getD_replicate_default_eq _ _ _
  refine ⟨?_, ?_, ?_⟩
  · show (chOf (aspeed_intc_enable_handler s c v) c).regEnable = v
    by_cases h0 : v = 0 ∧ (chOf s c).enable = 0
    · obtain ⟨h1, h2⟩ := h0
      subst h1
      rw [enable_disable hc h2, chOf_setCh_self hc]
    · by_cases hne : (chOf s c).enable ||| v ≠ (chOf s c).enable
      · rw [enable_new hc hne, chOf_setCh_self hc]
      · have heq := not_ne_iff.mp hne
        by_cases hchg : ((chOf s c).regEnable ^^^ v) &&& v ≠ 0
        · rw [enable_unmask hc h0 heq hchg, chOf_setCh_self hc]
        · rw [enable_mask hc h0 heq (not_ne_iff.mp hchg),
            chOf_setCh_self hc]
  · intro k
    cases k with
    | enableReg =>
      show (chOf initState c).regEnable = 0
      rw [hinit]
      rfl
    | statusReg =>
      show (chOf initState c).regStatus = 0
      rw [hinit]
      rfl
  · by_cases hv0 : v = 0
    · subst hv0
      rw [status_zero, if_pos rfl]
      rfl
    · rw [if_neg hv0]
      by_cases hvf : v = 0xffffffff
      · subst hvf
        rw [if_neg (by simp), status_allones hc]
        show (chOf (setCh s c _) c).regStatus = _
        rw [chOf_setCh_self hc]
      · by_cases hcl : (chOf s c).regStatus &&& compl32 v = 0
        · by_cases hpd : (chOf s c).pending ≠ 0
          · rw [if_pos ⟨hcl, hvf, hpd⟩, status_replay hv0 hc hvf hcl hpd]
            show (chOf (aspeed_intc_update (setCh s c _) c c true) c).regStatus = _
            rw [chOf_update, chOf_setCh_self hc]
          · rw [if_neg (by simp [hpd]), status_drop hv0 hc hvf hcl
              (not_ne_iff.mp hpd)]
            show (chOf (aspeed_intc_update (setCh s c _) c c false) c).regStatus = _
            rw [chOf_update, chOf_setCh_self hc]
        · rw [if_neg (by simp [hcl]), status_keep hv0 hc hvf hcl]
          show (chOf (setCh s c _) c).regStatus = _
          rw [chOf_setCh_self hc]

theorem c8_witness :
    0 < stLatched.channels.length ∧
      aspeed_intc_read (aspeed_intc_enable_handler stLatched 0 3) 0
        RegKind.enableReg = 3 :=
  ⟨by decide, (c8_read_raw_mirror stLatched 0 3 (by decide)).1⟩

/-- Claim C8 counterexample: in the reachable state `stLatched`
(channel 0 has bit 0 enabled and latched, raw status mirror = 1),
writing `v = 1` to the status register and then reading it back returns
0, not the raw value 1 that was written — status reads do not expose the
last raw value written. -/
theorem c8_counterexample :
    Reachable stLatched ∧
      aspeed_intc_read (aspeed_intc_status_handler stLatched 0 1) 0
        RegKind.statusReg ≠ 1 :=
  ⟨stLatched_reachable, by decide⟩
